import Mathlib

/-!
Shallow embedding of the rulego rule-chain runtime context
(src/engine/chain.go), the builtin processor registry
(src/builtin/processor/processor.go) and the DSL variable parser
(src/unnamed/part_000, package dsl), together with proofs about the
frozen claims on this code.

Go maps are modelled as association lists with insert-at-front
(lookup finds the newest binding, matching Go map assignment
semantics for reads).  Go slices that can be nil are modelled as
`Option (List _)` with `none` standing for the nil slice.  A Go
runtime panic (out-of-range slice index) is modelled by the
`Outcome.panics` constructor respectively a `none` result.
External collaborators of chain.go (the node-context builder, the
AES decrypt primitive, the map coercion helper, the DSL parser, the
default engine pool and the aspect hooks) are supplied through an
`Env` record of opaque functions.
-/

/-- Kind of a rule node id: a local node or a reference to another chain
(`types.RuleNodeId.Type` in the Go source). -/
inductive ComponentType where
  | NODE
  | CHAIN
deriving DecidableEq

/-- `types.RuleNodeId`: identity of a node or a sub-chain reference.
Equality is structural. -/
structure RuleNodeId where
  Id : String
  typ : ComponentType
deriving DecidableEq

/-- A value stored in a Go `map[string]interface` configuration:
either a string, a string-to-string map, or something else (opaque). -/
inductive ConfigValue where
  | str (s : String)
  | smap (m : List (String × String))
  | other (n : Nat)
deriving DecidableEq

/-- `types.RuleNode`: a node definition; we keep the fields chain.go and
the dsl parser read (id and configuration map). -/
structure RuleNode where
  Id : String
  Configuration : List (String × ConfigValue)
deriving DecidableEq

/-- `types.NodeConnection` / `types.RuleChainConnection`: an edge of the
definition, from a node id to a target id with a relation type label. -/
structure NodeConnection where
  FromId : String
  ToId : String
  typ : String
deriving DecidableEq

/-- The `RuleChain` sub-record of `types.RuleChain` (id, configuration,
debug flag). -/
structure RuleChainBase where
  ID : String
  DebugMode : Bool
  Configuration : Option (List (String × ConfigValue))
deriving DecidableEq

/-- `types.RuleChainMetadata`: first-node index, node list, node-to-node
connections and node-to-subchain connections. -/
structure RuleChainMeta where
  FirstNodeIndex : Int
  Nodes : List RuleNode
  Connections : List NodeConnection
  RuleChainConnections : List NodeConnection
deriving DecidableEq

/-- `types.RuleChain`: a whole chain definition. -/
structure RuleChain where
  RuleChain : RuleChainBase
  Metadata : RuleChainMeta
deriving DecidableEq

/-- `types.RuleNodeRelation`: a materialized relation between two rule
node ids with a relation type. -/
structure RuleNodeRelation where
  InId : RuleNodeId
  OutId : RuleNodeId
  RelationType : String
deriving DecidableEq

/-- `engine.RelationCache`: the cache key, an in-node id together with a
relation type. -/
structure RelationCache where
  inNodeId : RuleNodeId
  relationType : String
deriving DecidableEq

/-- A runtime node context (`types.NodeCtx`).  `ruleNode d` is a
`RuleNodeCtx` built from definition `d`; `chainRoot t` is the root
`RuleChainCtx` of some sub-chain engine, identified opaquely by a tag;
`zeroCtx` is the zero value produced as the `&RuleNodeCtx` placeholder
on an out-of-range index lookup. -/
inductive NodeCtx where
  | ruleNode (d : RuleNode)
  | chainRoot (tag : Nat)
  | zeroCtx
deriving DecidableEq

/-- A sub-chain engine of the pool: exposes its root chain context,
which may be nil. -/
structure Engine where
  root : Option NodeCtx
deriving DecidableEq

/-- The engine configuration fields chain.go reads (`types.Config`):
the secret key and an opaque handle for the components registry. -/
structure Config where
  SecretKey : String
  ComponentsRegistry : Nat
deriving DecidableEq

/-- `types.AspectList` as chain.go consumes it: `GetEngineAspects`
yields the reload-hook list and the destroy-hook list; hooks are
identified by opaque tags. -/
structure AspectList where
  reload : List Nat
  destroy : List Nat
deriving DecidableEq

/-- The root execution state (`NewRuleContext` result as far as chain.go
observes it): which node context it points at (nil when the synthesized
empty node failed to build). -/
structure RuleContextM where
  selfNode : Option NodeCtx
deriving DecidableEq

/-- A nilable Go slice: `none` is the nil slice. -/
abbrev GoSlice (α : Type) := Option (List α)

/-- Go `append` on a nilable slice. -/
def goAppend (s : GoSlice α) (a : α) : GoSlice α :=
  match s with
  | none => some [a]
  | some l => some (l ++ [a])

/-- A non-nil slice holding exactly the given list; nil when the list is
empty (Go `append` starting from nil never yields a non-nil empty
slice). -/
def goOfList (l : List α) : GoSlice α :=
  match l with
  | [] => none
  | _ => some l

/-- Go `len` of a nilable slice. -/
def sliceLen (s : GoSlice α) : Nat :=
  match s with
  | none => 0
  | some l => l.length

/-- Association-list lookup: first (newest) binding wins. -/
def Lookup [DecidableEq α] (m : List (α × β)) (k : α) : Option β :=
  match m with
  | [] => none
  | kv :: rest => if kv.1 = k then some kv.2 else Lookup rest k

/-- Go map assignment `m[k] = v`: newest binding shadows older ones. -/
def MInsert (m : List (α × β)) (k : α) (v : β) : List (α × β) :=
  (k, v) :: m

/-- `engine.RuleChainCtx`: the rule chain instance.  Field names follow
the Go struct; `nodeCtxRoutes` is declared in the Go struct but never
written by any code under analysis. -/
structure RuleChainCtx where
  Id : RuleNodeId
  SelfDefinition : RuleChain
  config : Config
  initialized : Bool
  componentsRegistry : Nat
  nodeIds : List RuleNodeId
  nodes : List (RuleNodeId × NodeCtx)
  nodeRoutes : List (RuleNodeId × List RuleNodeRelation)
  nodeCtxRoutes : List (RuleNodeId × List NodeCtx)
  relationCache : List (RelationCache × GoSlice NodeCtx)
  rootRuleContext : Option RuleContextM
  ruleChainPool : Option (List (String × Engine))
  aspects : AspectList
  reloadAspects : List Nat
  destroyAspects : List Nat
  vars : List (String × String)
  decryptSecrets : List (String × String)
  isEmpty : Bool
deriving DecidableEq

/-- The external collaborators of chain.go, modelled as opaque
functions: the node-context builder (`InitRuleNodeCtx`), the AES
decrypt primitive (`aes.Decrypt`), the configuration coercion
(`str.ToStringMapString`), the process-wide default sub-chain pool
(`engine.DefaultPool`), the DSL decoder (`config.Parser.DecodeRuleChain`)
and the behavior of each reload hook (`OnReloadAspect.OnReload`, keyed
by hook tag; the hook result is a function of the prior error). -/
structure Env where
  buildNode : Config → RuleNode → Except String NodeCtx
  decrypt : String → String → Except String String
  toStringMapString : Option ConfigValue → List (String × String)
  defaultPool : List (String × Engine)
  decode : AspectList → List Nat → Except String RuleChainCtx
  onReload : Nat → Option String → Option String

/-- Result of a Go computation that can also abort with a runtime
panic. -/
inductive Outcome (α : Type) where
  | ok (v : α)
  | err (e : String)
  | panics
deriving DecidableEq

/-- Whether an outcome is a successful value. -/
def Outcome.isOk : Outcome α → Bool
  | .ok _ => true
  | _ => false

/-- Extract a successful value from an outcome. -/
def Outcome.outOk : Outcome α → Option α
  | .ok v => some v
  | _ => none

/-- `RuleChainCtx.GetRuleChainPool`: the instance pool, falling back to
the process-wide default pool when none was set. -/
def GetRuleChainPool (env : Env) (rc : RuleChainCtx) : List (String × Engine) :=
  match rc.ruleChainPool with
  | none => env.defaultPool
  | some p => p

/-- `RuleChainCtx.GetNodeById`: CHAIN-kind ids resolve through the
sub-chain pool (present engine with a non-nil root), NODE-kind ids
through the local node map.  The Go method returns the pair
`(ctx, ok)`; at every return site the value is non-nil exactly when
`ok` is true, so the pair is modelled by one `Option`. -/
def GetNodeById (env : Env) (rc : RuleChainCtx) (id : RuleNodeId) : Option NodeCtx :=
  if id.typ = ComponentType.CHAIN then
    match Lookup (GetRuleChainPool env rc) id.Id with
    | some subRuleEngine =>
      match subRuleEngine.root with
      | some root => some root
      | none => none
    | none => none
  else
    Lookup rc.nodes id

/-- `RuleChainCtx.GetNodeByIndex`.  The Go code checks only
`index >= len(rc.nodeIds)` before indexing, so a negative index reaches
`rc.nodeIds[index]` and panics (`none` result); an index at or above
the length yields the `&RuleNodeCtx` zero placeholder with
`ok = false`. -/
def GetNodeByIndex (env : Env) (rc : RuleChainCtx) (index : Int) : Option (Option NodeCtx × Bool) :=
  if hge : (rc.nodeIds.length : Int) ≤ index then
    some (some NodeCtx.zeroCtx, false)
  else if hneg : index < 0 then
    none
  else
    have hlt : index.toNat < rc.nodeIds.length := by omega
    let c := GetNodeById env rc (rc.nodeIds.get ⟨index.toNat, hlt⟩)
    some (c, c.isSome)

/-- `RuleChainCtx.GetFirstNode`: index lookup at the definition's
first-node index. -/
def GetFirstNode (env : Env) (rc : RuleChainCtx) : Option (Option NodeCtx × Bool) :=
  GetNodeByIndex env rc rc.SelfDefinition.Metadata.FirstNodeIndex

/-- `RuleChainCtx.GetNodeRoutes`: read-locked lookup of the outbound
relations of a node id. -/
def GetNodeRoutes (rc : RuleChainCtx) (id : RuleNodeId) : Option (List RuleNodeRelation) :=
  Lookup rc.nodeRoutes id

/-- The loop body of `RuleChainCtx.GetNextNodes`: walk the relations of
the source node, keep those whose relation type matches, resolve each
target through `GetNodeById` and append the resolved contexts; the
boolean records whether any successor was appended. -/
def resolveLoop (env : Env) (rc : RuleChainCtx) (relationType : String) :
    List RuleNodeRelation → GoSlice NodeCtx → Bool → GoSlice NodeCtx × Bool
  | [], acc, has => (acc, has)
  | item :: rest, acc, has =>
    if item.RelationType = relationType then
      match GetNodeById env rc item.OutId with
      | some nodeCtx => resolveLoop env rc relationType rest (goAppend acc nodeCtx) true
      | none => resolveLoop env rc relationType rest acc has
    else
      resolveLoop env rc relationType rest acc has

/-- `RuleChainCtx.GetNextNodes`: successors of a node for a relation
type.  A cache hit returns the cached slice with `found` = slice
non-nil; a miss resolves from the routes, stores the resolved slice
(possibly nil) in the cache and returns it with the
`hasNextComponents` boolean.  The third component is the updated
instance state (the Go method mutates the receiver's cache). -/
def GetNextNodes (env : Env) (rc : RuleChainCtx) (id : RuleNodeId) (relationType : String) :
    GoSlice NodeCtx × Bool × RuleChainCtx :=
  let cacheKey : RelationCache := ⟨id, relationType⟩
  match Lookup rc.relationCache cacheKey with
  | some cached => (cached, cached.isSome, rc)
  | none =>
    let pair :=
      match GetNodeRoutes rc id with
      | some relations => resolveLoop env rc relationType relations none false
      | none => (none, false)
    (pair.1, pair.2,
      { rc with relationCache := MInsert rc.relationCache cacheKey pair.1 })

/-- `RuleChainCtx.Copy`: copy every listed field from the new instance
and reset the relation cache.  The Go method does not copy `isEmpty`
(nor the unused `nodeCtxRoutes`), so those keep the receiver's values. -/
def RuleChainCtx.Copy (rc newCtx : RuleChainCtx) : RuleChainCtx :=
  { rc with
    Id := newCtx.Id
    config := newCtx.config
    initialized := newCtx.initialized
    componentsRegistry := newCtx.componentsRegistry
    SelfDefinition := newCtx.SelfDefinition
    nodeIds := newCtx.nodeIds
    nodes := newCtx.nodes
    nodeRoutes := newCtx.nodeRoutes
    rootRuleContext := newCtx.rootRuleContext
    ruleChainPool := newCtx.ruleChainPool
    aspects := newCtx.aspects
    reloadAspects := newCtx.reloadAspects
    destroyAspects := newCtx.destroyAspects
    vars := newCtx.vars
    decryptSecrets := newCtx.decryptSecrets
    relationCache := [] }

/-- `decryptSecret` (chain.go): decrypt each configured secret with the
engine key; on success store the plaintext, on failure store the
original ciphertext verbatim. -/
def decryptSecret (env : Env) (inputMap : List (String × String)) (secretKey : String) :
    List (String × String) :=
  inputMap.map (fun kv =>
    match env.decrypt kv.2 secretKey with
    | .ok plaintext => (kv.1, plaintext)
    | .error _ => kv)

/-- Modelled from the spec: the auto-assigned id stem for nodes with an
empty id (the `defaultNodeIdPrefix` constant lives outside the given
sources; the spec fixes the shape `node<index>`). -/
def defaultNodeIdStem : String := "node"

/-- Modelled from the spec: the recognized configuration key for chain
variables (`types.Vars`, declared outside the given sources). -/
def varsKey : String := "vars"

/-- Modelled from the spec: the recognized configuration key for chain
secrets (`types.Secrets`, declared outside the given sources). -/
def secretsKey : String := "secrets"

/-- The node-loading loop of `InitRuleChainCtx`: assign `node<index>`
to empty ids, build each node context (a builder error aborts the whole
build) and accumulate the id list and the node map in definition
order. -/
def initNodesGo (env : Env) (config : Config) :
    List RuleNode → Nat → List RuleNodeId → List (RuleNodeId × NodeCtx) →
    Except String (List RuleNodeId × List (RuleNodeId × NodeCtx))
  | [], _, ids, nds => .ok (ids, nds)
  | item :: rest, index, ids, nds =>
    let item := if item.Id = "" then { item with Id := defaultNodeIdStem ++ toString index } else item
    let ruleNodeId : RuleNodeId := ⟨item.Id, ComponentType.NODE⟩
    match env.buildNode config item with
    | .error e => .error e
    | .ok ruleNodeCtx =>
      initNodesGo env config rest (index + 1) (ids ++ [ruleNodeId]) (MInsert nds ruleNodeId ruleNodeCtx)

/-- One step of the connection-loading loops of `InitRuleChainCtx`:
append the relation to the existing relation list of the in-node, or
start a fresh singleton list. -/
def addRoute (m : List (RuleNodeId × List RuleNodeRelation)) (inNodeId : RuleNodeId)
    (rel : RuleNodeRelation) : List (RuleNodeId × List RuleNodeRelation) :=
  match Lookup m inNodeId with
  | some nodeRelations => MInsert m inNodeId (nodeRelations ++ [rel])
  | none => MInsert m inNodeId [rel]

/-- The two connection-loading loops of `InitRuleChainCtx`: first every
node-to-node connection (NODE-kind target), then every node-to-subchain
connection (CHAIN-kind target), each appended to the routes of its
in-node in definition order. -/
def buildRoutes (ruleChainDef : RuleChain) : List (RuleNodeId × List RuleNodeRelation) :=
  let m1 := ruleChainDef.Metadata.Connections.foldl
    (fun m item =>
      addRoute m ⟨item.FromId, ComponentType.NODE⟩
        ⟨⟨item.FromId, ComponentType.NODE⟩, ⟨item.ToId, ComponentType.NODE⟩, item.typ⟩)
    []
  ruleChainDef.Metadata.RuleChainConnections.foldl
    (fun m item =>
      addRoute m ⟨item.FromId, ComponentType.NODE⟩
        ⟨⟨item.FromId, ComponentType.NODE⟩, ⟨item.ToId, ComponentType.CHAIN⟩, item.typ⟩)
    m1

/-- The zero `types.RuleNode` value used for the synthesized empty
node. -/
def emptyRuleNode : RuleNode := ⟨"", []⟩

/-- The chain context as assembled by `InitRuleChainCtx` before the
first node is looked up: empty maps, `initialized = true`, the coerced
vars, the decrypted secrets, the loaded nodes and the loaded routes. -/
def mkCtx0 (env : Env) (config : Config) (aspects : AspectList) (ruleChainDef : RuleChain)
    (ids : List RuleNodeId) (nds : List (RuleNodeId × NodeCtx)) : RuleChainCtx :=
  { Id := if ruleChainDef.RuleChain.ID ≠ "" then ⟨ruleChainDef.RuleChain.ID, ComponentType.CHAIN⟩
          else ⟨"", ComponentType.NODE⟩
    SelfDefinition := ruleChainDef
    config := config
    initialized := true
    componentsRegistry := config.ComponentsRegistry
    nodeIds := ids
    nodes := nds
    nodeRoutes := buildRoutes ruleChainDef
    nodeCtxRoutes := []
    relationCache := []
    rootRuleContext := none
    ruleChainPool := none
    aspects := aspects
    reloadAspects := aspects.reload
    destroyAspects := aspects.destroy
    vars :=
      match ruleChainDef.RuleChain.Configuration with
      | some conf => env.toStringMapString (Lookup conf varsKey)
      | none => []
    decryptSecrets :=
      match ruleChainDef.RuleChain.Configuration with
      | some conf => decryptSecret env (env.toStringMapString (Lookup conf secretsKey)) config.SecretKey
      | none => []
    isEmpty := false }

/-- `engine.InitRuleChainCtx`: build a chain context from a definition.
Vars and secrets are coerced and decrypted when a configuration is
present; nodes are loaded in order (builder errors abort); routes are
loaded from both connection lists; the first node seeds the root rule
context, falling back to a synthesized empty node with `isEmpty = true`
when the lookup reports not-found.  A negative first-node index makes
the internal index lookup panic.  `initFinish` is the tail of the
builder, from the first-node lookup on. -/
def initFinish (env : Env) (config : Config) (ctx0 : RuleChainCtx) : Outcome RuleChainCtx :=
  match GetFirstNode env ctx0 with
  | none => Outcome.panics
  | some (firstNode, ok) =>
    if ok then
      Outcome.ok { ctx0 with rootRuleContext := some ⟨firstNode⟩ }
    else
      Outcome.ok { ctx0 with
        rootRuleContext := some ⟨(env.buildNode config emptyRuleNode).toOption⟩
        isEmpty := true }

/-- `engine.InitRuleChainCtx` proper: load the nodes, assemble the
context and seed the root rule context from the first node. -/
def InitRuleChainCtx (env : Env) (config : Config) (aspects : AspectList)
    (ruleChainDef : RuleChain) : Outcome RuleChainCtx :=
  match initNodesGo env config ruleChainDef.Metadata.Nodes 0 [] [] with
  | .error e => Outcome.err e
  | .ok (ids, nds) =>
    initFinish env config (mkCtx0 env config aspects ruleChainDef ids nds)

/-- One reload hook invocation record: the two context arguments and the
error argument passed to `OnReload`, plus the hook's tag. -/
structure HookCall where
  chainArg : RuleChainCtx
  nodeArg : RuleChainCtx
  errArg : Option String
  tag : Nat
deriving DecidableEq

/-- The hook loop of `ReloadSelf`: invoke each reload hook with
`(c, c, e)`; a hook returning a non-nil error stops the loop and
becomes the result, otherwise the prior error `e` is returned.  The
second component records every invocation made. -/
def runHooks (env : Env) (c : RuleChainCtx) (e : Option String) :
    List Nat → Option String × List HookCall
  | [] => (e, [])
  | t :: ts =>
    match env.onReload t e with
    | some hookErr => (some hookErr, [⟨c, c, e, t⟩])
    | none =>
      let rest := runHooks env c e ts
      (rest.1, ⟨c, c, e, t⟩ :: rest.2)

/-- The error of a decode attempt (`nil` on success). -/
def errOf : Except String α → Option String
  | .ok _ => none
  | .error e => some e

/-- Result of `ReloadSelf`: the instance state afterwards, the returned
error, the reload-hook invocations made and whether `Destroy` ran. -/
structure ReloadResult where
  state : RuleChainCtx
  ret : Option String
  hookCalls : List HookCall
  destroyed : Bool
deriving DecidableEq

/-- `RuleChainCtx.ReloadSelf`: decode the new definition; on success
destroy the current instance and copy the fresh one over it; in either
case run the reload hooks of the (possibly swapped) instance with the
decode error, any hook error superseding it. -/
def ReloadSelf (env : Env) (rc : RuleChainCtx) (b : List Nat) : ReloadResult :=
  match env.decode rc.aspects b with
  | .ok newCtx =>
    let rc2 := RuleChainCtx.Copy rc newCtx
    let hooks := runHooks env rc2 none rc2.reloadAspects
    ⟨rc2, hooks.1, hooks.2, true⟩
  | .error e =>
    let hooks := runHooks env rc (some e) rc.reloadAspects
    ⟨rc, hooks.1, hooks.2, false⟩

/-- `builtins.Register` (processor.go): register a processor under a
name, replacing any previous binding. -/
def builtinsRegister (m : List (String × α)) (name : String) (p : α) : List (String × α) :=
  MInsert m name p

/-- `builtins.Unregister` (processor.go): delete every given name from
the registry. -/
def builtinsUnregister (m : List (String × α)) (names : List String) :
    List (String × α) :=
  names.foldl (fun acc name => acc.filter (fun kv => kv.1 ≠ name)) m

/-- `builtins.Get` (processor.go): look a processor up by name,
returning the zero value and `false` when absent. -/
def builtinsGet (m : List (String × α)) (name : String) : Option α × Bool :=
  match Lookup m name with
  | some p => (some p, true)
  | none => (none, false)

/-- ASCII lowering of a string, modelling `strings.ToLower` on the
ASCII field names the dsl parser inspects. -/
def strToLower (s : String) : String := s.map Char.toLower

/-- Whether `pat` occurs at the head of `l`. -/
def isPfxOf [DecidableEq α] : List α → List α → Bool
  | [], _ => true
  | _ :: _, [] => false
  | a :: pat, b :: l => a = b && isPfxOf pat l

/-- Whether `pat` occurs contiguously anywhere in `l`, modelling
`strings.Contains`. -/
def hasSub [DecidableEq α] (pat : List α) : List α → Bool
  | [] => isPfxOf pat []
  | b :: l => isPfxOf pat (b :: l) || hasSub pat l

/-- The script-field test of `dsl.ParseVars`: the lowered field name
contains the word script. -/
def hasScript (fieldName : String) : Bool :=
  hasSub "script".toList (strToLower fieldName).toList

/-- Set insertion into the merge list (`mergeVars` is a set in the Go
source; we keep first-insertion order). -/
def mergeIns (acc : List String) (v : String) : List String :=
  if v ∈ acc then acc else acc ++ [v]

/-- `dsl.ParseVars` (package dsl): walk every node's configuration,
extract variables from string-valued fields — script fields through the
`vars.xx` extractor, other fields through the `$\x7bvars.xx\x7d`
extractor — and merge them into a duplicate-free list.  The two
extractors (`str.ParseVars`, `str.ParseVarsWithBraces`) live outside
the given sources and are taken as parameters.  `parseStepField` is the
per-field body of the loop. -/
def parseStepField (scriptVarsOf braceVarsOf : String → List String) (acc : List String)
    (kv : String × ConfigValue) : List String :=
  match kv.2 with
  | ConfigValue.str strV =>
    let vars := if hasScript kv.1 then scriptVarsOf strV else braceVarsOf strV
    vars.foldl mergeIns acc
  | _ => acc

/-- The per-node inner loop of `dsl.ParseVars`: fold the extraction over
every configuration field of one node. -/
def parseStepNode (scriptVarsOf braceVarsOf : String → List String) (acc : List String)
    (node : RuleNode) : List String :=
  node.Configuration.foldl (parseStepField scriptVarsOf braceVarsOf) acc

def ParseVars (scriptVarsOf braceVarsOf : String → List String) (ruleChainDef : RuleChain) :
    List String :=
  ruleChainDef.Metadata.Nodes.foldl (parseStepNode scriptVarsOf braceVarsOf) []

/-- The relations of a definition whose source is the given node id, in
definition order: node-to-node connections first (NODE-kind target),
then node-to-subchain connections (CHAIN-kind target), mirroring the
load order of `InitRuleChainCtx`. -/
def defRelations (ruleChainDef : RuleChain) (fromId : String) : List RuleNodeRelation :=
  (ruleChainDef.Metadata.Connections.filter (fun c => c.FromId = fromId)).map
    (fun c => ⟨⟨c.FromId, ComponentType.NODE⟩, ⟨c.ToId, ComponentType.NODE⟩, c.typ⟩)
  ++ (ruleChainDef.Metadata.RuleChainConnections.filter (fun c => c.FromId = fromId)).map
    (fun c => ⟨⟨c.FromId, ComponentType.NODE⟩, ⟨c.ToId, ComponentType.CHAIN⟩, c.typ⟩)

/-- The relations of a definition from a given node that carry a given
relation type, in definition order. -/
def matchingRels (ruleChainDef : RuleChain) (fromId : String) (relationType : String) :
    List RuleNodeRelation :=
  (defRelations ruleChainDef fromId).filter (fun r => r.RelationType = relationType)

/-- Merge an optional existing relation list with newly appended
relations; absent stays absent only when nothing is appended
(the shape `addRoute` folds produce). -/
def mergeOpt (o : Option (List α)) (new : List α) : Option (List α) :=
  match o, new with
  | none, [] => none
  | o, new => some (o.getD [] ++ new)

/-- Append a whole list to a nilable Go slice, one `goAppend` at a
time. -/
def goAppendAll (s : GoSlice α) (l : List α) : GoSlice α :=
  l.foldl goAppend s

/-- Cache well-formedness: no cached slice is non-nil and empty.  Every
cache entry the code ever stores is either the nil slice or non-empty,
so this invariant holds for all reachable instances. -/
abbrev CacheWF (rc : RuleChainCtx) : Prop :=
  ∀ p ∈ rc.relationCache, p.2 ≠ some ([] : List NodeCtx)

/-- The first non-nil error produced by the reload hooks on prior error
`e`, if any. -/
def firstHookErr (env : Env) (e : Option String) : List Nat → Option String
  | [] => none
  | t :: ts =>
    match env.onReload t e with
    | some hookErr => some hookErr
    | none => firstHookErr env e ts

/-- The hooks actually invoked on prior error `e`: all of them up to and
including the first one that errors. -/
def hooksRun (env : Env) (e : Option String) : List Nat → List Nat
  | [] => []
  | t :: ts => if (env.onReload t e).isSome then [t] else t :: hooksRun env e ts

/-- A concrete environment used to exercise the theorems: the node
builder succeeds on every definition, decryption succeeds only on the
ciphertext enc1, the coercion reads string-map configuration values,
the default pool holds one resolvable sub-chain sub1, decoding always
fails, and reload hook 2 fails. -/
def envW : Env :=
  { buildNode := fun _ n => .ok (NodeCtx.ruleNode n)
    decrypt := fun v _ => if v = "enc1" then .ok "plain1" else .error "badcipher"
    toStringMapString := fun o =>
      match o with
      | some (ConfigValue.smap m) => m
      | _ => []
    defaultPool := [("sub1", ⟨some (NodeCtx.chainRoot 7)⟩)]
    decode := fun _ _ => .error "bad"
    onReload := fun t _ => if t = 2 then some "hookfail" else none }

/-- A concrete engine configuration. -/
def cfgW : Config := ⟨"key", 0⟩

/-- A concrete aspect list with three reload hooks. -/
def aspW : AspectList := ⟨[1, 2, 3], []⟩

/-- A concrete two-node definition: nodes a and b; relations from a with
label Success to b, to a missing node, to the pooled sub-chain sub1 and
to a missing sub-chain. -/
def dTwo : RuleChain :=
  { RuleChain := ⟨"c1", false, some [(secretsKey, ConfigValue.smap [("s1", "enc1"), ("s2", "enc2")])]⟩
    Metadata :=
      { FirstNodeIndex := 0
        Nodes := [⟨"a", []⟩, ⟨"b", [("jsScript", ConfigValue.str "sa"), ("url", ConfigValue.str "ub")]⟩]
        Connections := [⟨"a", "b", "Success"⟩, ⟨"a", "missing", "Success"⟩, ⟨"a", "b", "Success"⟩]
        RuleChainConnections := [⟨"a", "sub1", "Success"⟩, ⟨"a", "nosub", "Success"⟩] } }

/-- A concrete definition with no nodes. -/
def dEmpty : RuleChain :=
  { RuleChain := ⟨"c0", false, none⟩
    Metadata := { FirstNodeIndex := 0, Nodes := [], Connections := [], RuleChainConnections := [] } }

/-- A concrete one-node definition. -/
def dOne : RuleChain :=
  { RuleChain := ⟨"c2", false, none⟩
    Metadata := { FirstNodeIndex := 0, Nodes := [⟨"a", []⟩], Connections := [], RuleChainConnections := [] } }

/-- A fallback chain context value for extracting build results. -/
def dummyCtx : RuleChainCtx :=
  { Id := ⟨"", ComponentType.NODE⟩
    SelfDefinition := dEmpty
    config := ⟨"", 0⟩
    initialized := false
    componentsRegistry := 0
    nodeIds := []
    nodes := []
    nodeRoutes := []
    nodeCtxRoutes := []
    relationCache := []
    rootRuleContext := none
    ruleChainPool := none
    aspects := ⟨[], []⟩
    reloadAspects := []
    destroyAspects := []
    vars := []
    decryptSecrets := []
    isEmpty := false }

/-- The context built from the two-node definition. -/
def ctxTwo : RuleChainCtx := ((InitRuleChainCtx envW cfgW aspW dTwo).outOk).getD dummyCtx

/-- The context built from the empty definition. -/
def ctxEmptyW : RuleChainCtx := ((InitRuleChainCtx envW cfgW aspW dEmpty).outOk).getD dummyCtx

/-- The context built from the one-node definition. -/
def ctxOneW : RuleChainCtx := ((InitRuleChainCtx envW cfgW aspW dOne).outOk).getD dummyCtx

theorem Lookup_MInsert [DecidableEq α] (m : List (α × β)) (k k' : α) (v : β) :
    Lookup (MInsert m k v) k' = if k = k' then some v else Lookup m k' := by
  simp [MInsert, Lookup]

theorem Lookup_addRoute (m : List (RuleNodeId × List RuleNodeRelation)) (inNodeId : RuleNodeId)
    (rel : RuleNodeRelation) (k : RuleNodeId) :
    Lookup (addRoute m inNodeId rel) k
      = if inNodeId = k then some (((Lookup m inNodeId).getD []) ++ [rel]) else Lookup m k := by
  unfold addRoute
  cases h : Lookup m inNodeId <;> simp [Lookup_MInsert, h]

theorem goOfList_cons (a : α) (l : List α) : goOfList (a :: l) = some (a :: l) := rfl

theorem mergeOpt_nil (o : Option (List α)) : mergeOpt o [] = o := by
  cases o <;> simp [mergeOpt, goOfList]

theorem mergeOpt_some (l new : List α) : mergeOpt (some l) new = some (l ++ new) := rfl

theorem Lookup_foldl_addRoute (key : γ → RuleNodeId) (rel : γ → RuleNodeRelation)
    (L : List γ) (m : List (RuleNodeId × List RuleNodeRelation)) (k : RuleNodeId) :
    Lookup (L.foldl (fun m item => addRoute m (key item) (rel item)) m) k
      = mergeOpt (Lookup m k) ((L.filter (fun c => key c = k)).map rel) := by
  induction L generalizing m with
  | nil => simp [mergeOpt_nil]
  | cons c L ih =>
    simp only [List.foldl_cons]
    rw [ih]
    by_cases hk : key c = k
    · subst hk
      rw [Lookup_addRoute, if_pos rfl]
      rw [show (c :: L).filter (fun x => decide (key x = key c))
            = c :: L.filter (fun x => decide (key x = key c)) from by simp [List.filter_cons]]
      rw [List.map_cons]
      cases h : Lookup m (key c) <;> simp [mergeOpt, h, goOfList_cons]
    · rw [Lookup_addRoute, if_neg hk]
      simp [List.filter_cons, hk]

theorem mergeOpt_mergeOpt_none (A B : List α) :
    mergeOpt (mergeOpt none A) B = mergeOpt none (A ++ B) := by
  cases A with
  | nil => simp [mergeOpt, goOfList]
  | cons a A => cases B <;> simp [mergeOpt, goOfList]

theorem Lookup_buildRoutes (d : RuleChain) (fromId : String) :
    Lookup (buildRoutes d) ⟨fromId, ComponentType.NODE⟩
      = mergeOpt none (defRelations d fromId) := by
  unfold buildRoutes
  rw [Lookup_foldl_addRoute, Lookup_foldl_addRoute]
  have hf1 : ∀ L : List NodeConnection,
      L.filter (fun c => decide ((⟨c.FromId, ComponentType.NODE⟩ : RuleNodeId) = ⟨fromId, ComponentType.NODE⟩))
        = L.filter (fun c => c.FromId = fromId) := by
    intro L
    apply List.filter_congr
    intro c _
    simp [RuleNodeId.mk.injEq]
  rw [show (Lookup ([] : List (RuleNodeId × List RuleNodeRelation)) (⟨fromId, ComponentType.NODE⟩ : RuleNodeId)) = none from rfl]
  rw [hf1, hf1, mergeOpt_mergeOpt_none]
  simp [defRelations]

theorem goAppendAll_some (l0 l : List α) : goAppendAll (some l0) l = some (l0 ++ l) := by
  induction l generalizing l0 with
  | nil => simp [goAppendAll]
  | cons a l ih => simp [goAppendAll, goAppend, List.foldl_cons] at ih ⊢; simp [ih]

theorem goAppendAll_none (l : List α) : goAppendAll none l = goOfList l := by
  cases l with
  | nil => rfl
  | cons a l =>
    show goAppendAll (goAppend none a) l = _
    simp [goAppend, goAppendAll_some, goOfList_cons]

theorem resolveLoop_spec (env : Env) (rc : RuleChainCtx) (relationType : String)
    (rels : List RuleNodeRelation) (acc : GoSlice NodeCtx) (has : Bool) :
    resolveLoop env rc relationType rels acc has
      = (goAppendAll acc ((rels.filter (fun r => r.RelationType = relationType)).filterMap
            (fun r => GetNodeById env rc r.OutId)),
         has || !((rels.filter (fun r => r.RelationType = relationType)).filterMap
            (fun r => GetNodeById env rc r.OutId)).isEmpty) := by
  induction rels generalizing acc has with
  | nil => simp [resolveLoop, goAppendAll]
  | cons r rest ih =>
    by_cases hl : r.RelationType = relationType
    · cases hg : GetNodeById env rc r.OutId with
      | some c =>
        rw [show (r :: rest).filter (fun x => decide (x.RelationType = relationType))
              = r :: rest.filter (fun x => decide (x.RelationType = relationType)) from by
            simp [List.filter_cons, hl]]
        simp only [resolveLoop, if_pos hl, hg, List.filterMap_cons, ih]
        rw [show goAppendAll acc (c :: (rest.filter
              (fun x => decide (x.RelationType = relationType))).filterMap
              (fun r => GetNodeById env rc r.OutId))
            = goAppendAll (goAppend acc c) ((rest.filter
              (fun x => decide (x.RelationType = relationType))).filterMap
              (fun r => GetNodeById env rc r.OutId)) from rfl]
        simp
      | none =>
        rw [show (r :: rest).filter (fun x => decide (x.RelationType = relationType))
              = r :: rest.filter (fun x => decide (x.RelationType = relationType)) from by
            simp [List.filter_cons, hl]]
        simp only [resolveLoop, if_pos hl, hg, List.filterMap_cons, ih]
    · rw [show (r :: rest).filter (fun x => decide (x.RelationType = relationType))
            = rest.filter (fun x => decide (x.RelationType = relationType)) from by
          simp [List.filter_cons, hl]]
      simp only [resolveLoop, if_neg hl, ih]

theorem initFinish_ok (env : Env) (cfg : Config) (ctx0 ctx : RuleChainCtx)
    (h : initFinish env cfg ctx0 = .ok ctx) :
    (∃ fn, GetFirstNode env ctx0 = some (fn, true)
       ∧ ctx = { ctx0 with rootRuleContext := some ⟨fn⟩ })
    ∨ (∃ fn, GetFirstNode env ctx0 = some (fn, false)
       ∧ ctx = { ctx0 with
           rootRuleContext := some ⟨(env.buildNode cfg emptyRuleNode).toOption⟩
           isEmpty := true }) := by
  unfold initFinish at h
  cases hf : GetFirstNode env ctx0 with
  | none => rw [hf] at h; exact Outcome.noConfusion h
  | some pr =>
    obtain ⟨fn, okb⟩ := pr
    rw [hf] at h
    cases okb with
    | true =>
      left
      exact ⟨fn, rfl, (Outcome.ok.inj h).symm⟩
    | false =>
      right
      exact ⟨fn, rfl, (Outcome.ok.inj h).symm⟩

theorem Init_ok_destruct (env : Env) (cfg : Config) (a : AspectList) (d : RuleChain)
    (ctx : RuleChainCtx) (h : InitRuleChainCtx env cfg a d = .ok ctx) :
    ∃ ids nds, initNodesGo env cfg d.Metadata.Nodes 0 [] [] = .ok (ids, nds)
      ∧ initFinish env cfg (mkCtx0 env cfg a d ids nds) = .ok ctx := by
  unfold InitRuleChainCtx at h
  cases hn : initNodesGo env cfg d.Metadata.Nodes 0 [] [] with
  | error e => rw [hn] at h; exact Outcome.noConfusion h
  | ok p =>
    obtain ⟨ids, nds⟩ := p
    rw [hn] at h
    exact ⟨ids, nds, rfl, h⟩

theorem Init_ok_fields (env : Env) (cfg : Config) (a : AspectList) (d : RuleChain)
    (ctx : RuleChainCtx) (h : InitRuleChainCtx env cfg a d = .ok ctx) :
    ctx.relationCache = [] ∧ ctx.nodeRoutes = buildRoutes d ∧ ctx.SelfDefinition = d
    ∧ ctx.config = cfg ∧ ctx.ruleChainPool = none ∧ ctx.nodeCtxRoutes = []
    ∧ ctx.reloadAspects = a.reload ∧ ctx.aspects = a ∧ ctx.initialized = true
    ∧ ctx.decryptSecrets = (match d.RuleChain.Configuration with
        | some conf =>
            decryptSecret env (env.toStringMapString (Lookup conf secretsKey)) cfg.SecretKey
        | none => []) := by
  obtain ⟨ids, nds, hn, hfin⟩ := Init_ok_destruct env cfg a d ctx h
  rcases initFinish_ok env cfg _ ctx hfin with ⟨fn, hf, rfl⟩ | ⟨fn, hf, rfl⟩ <;>
    simp [mkCtx0]

theorem initNodesGo_ok_length (env : Env) (cfg : Config) (L : List RuleNode) :
    ∀ (idx : Nat) (ids0 : List RuleNodeId) (nds0 : List (RuleNodeId × NodeCtx)) ids nds,
    initNodesGo env cfg L idx ids0 nds0 = .ok (ids, nds) →
    ids.length = ids0.length + L.length := by
  induction L with
  | nil =>
    intro idx ids0 nds0 ids nds h
    simp [initNodesGo] at h
    rw [← h.1]
    simp
  | cons n L ih =>
    intro idx ids0 nds0 ids nds h
    unfold initNodesGo at h
    dsimp only at h
    cases hb : env.buildNode cfg (if n.Id = "" then { n with Id := defaultNodeIdStem ++ toString idx } else n) with
    | error e => rw [hb] at h; exact Except.noConfusion h
    | ok c =>
      rw [hb] at h
      have := ih _ _ _ _ _ h
      simp [List.length_append] at this
      simp [List.length_cons]
      omega

theorem GetNodeByIndex_oob (env : Env) (rc : RuleChainCtx) (i : Int)
    (hi : (rc.nodeIds.length : Int) ≤ i) :
    GetNodeByIndex env rc i = some (some NodeCtx.zeroCtx, false) := by
  unfold GetNodeByIndex
  rw [dif_pos hi]

theorem GetNodeByIndex_neg (env : Env) (rc : RuleChainCtx) (i : Int) (hi : i < 0) :
    GetNodeByIndex env rc i = none := by
  unfold GetNodeByIndex
  by_cases hge : (rc.nodeIds.length : Int) ≤ i
  · omega
  · rw [dif_neg hge, dif_pos hi]

theorem GetNextNodes_built (env : Env) (cfg : Config) (a : AspectList) (d : RuleChain)
    (ctx : RuleChainCtx) (h : InitRuleChainCtx env cfg a d = .ok ctx)
    (fromId relationType : String) :
    (GetNextNodes env ctx ⟨fromId, ComponentType.NODE⟩ relationType).1
      = goOfList ((matchingRels d fromId relationType).filterMap
          (fun r => GetNodeById env ctx r.OutId))
    ∧ (GetNextNodes env ctx ⟨fromId, ComponentType.NODE⟩ relationType).2.1
      = !((matchingRels d fromId relationType).filterMap
          (fun r => GetNodeById env ctx r.OutId)).isEmpty := by
  have hfld := Init_ok_fields env cfg a d ctx h
  have hcache :
      Lookup ctx.relationCache ⟨⟨fromId, ComponentType.NODE⟩, relationType⟩ = none := by
    rw [hfld.1]; rfl
  have hroutes : GetNodeRoutes ctx ⟨fromId, ComponentType.NODE⟩
      = mergeOpt none (defRelations d fromId) := by
    unfold GetNodeRoutes
    rw [hfld.2.1, Lookup_buildRoutes]
  simp only [GetNextNodes, hcache, hroutes]
  cases hdr : defRelations d fromId with
  | nil =>
    simp [mergeOpt, goOfList, matchingRels, hdr]
  | cons r rs =>
    simp only [mergeOpt, goOfList]
    rw [resolveLoop_spec, goAppendAll_none]
    simp [matchingRels, hdr]
    rfl

/-- C1: for every built chain context and every relation (f, l, t) of
its definition with a resolvable target, GetNextNodes(f, l) returns
exactly the definition-ordered matching relations with each resolvable
target resolved and every unresolvable one skipped — so each resolvable
target t appears at the position given by the definition order of the
matching relations, and duplicate relations (same from, label, to)
yield duplicate entries. -/
theorem GetNextNodes_definition_order (env : Env) (cfg : Config) (a : AspectList)
    (d : RuleChain) (ctx : RuleChainCtx) (h : InitRuleChainCtx env cfg a d = .ok ctx)
    (fromId relationType : String) :
    (GetNextNodes env ctx ⟨fromId, ComponentType.NODE⟩ relationType).1
      = goOfList ((matchingRels d fromId relationType).filterMap
          (fun r => GetNodeById env ctx r.OutId)) :=
  (GetNextNodes_built env cfg a d ctx h fromId relationType).1

/-- Witness for C1 at the concrete two-node chain: the build succeeds
and the successor list of node a under Success is the definition-order
resolution of its matching relations. -/
theorem GetNextNodes_definition_order_witness :
    InitRuleChainCtx envW cfgW aspW dTwo = .ok ctxTwo
    ∧ (GetNextNodes envW ctxTwo ⟨"a", ComponentType.NODE⟩ "Success").1
      = goOfList ((matchingRels dTwo "a" "Success").filterMap
          (fun r => GetNodeById envW ctxTwo r.OutId)) :=
  ⟨by decide, GetNextNodes_definition_order envW cfgW aspW dTwo ctxTwo (by decide) "a" "Success"⟩

theorem Lookup_mem [DecidableEq α] (m : List (α × β)) (k : α) (v : β)
    (h : Lookup m k = some v) : (k, v) ∈ m := by
  induction m with
  | nil => cases h
  | cons kv rest ih =>
    obtain ⟨k1, v1⟩ := kv
    by_cases hk : k1 = k
    · subst hk
      simp [Lookup] at h
      subst h
      exact List.mem_cons_self _ _
    · simp [Lookup, hk] at h
      exact List.mem_cons_of_mem _ (ih h)

theorem GetNextNodes_hit (env : Env) (rc : RuleChainCtx) (id : RuleNodeId)
    (relationType : String) (cached : GoSlice NodeCtx)
    (hc : Lookup rc.relationCache ⟨id, relationType⟩ = some cached) :
    GetNextNodes env rc id relationType = (cached, cached.isSome, rc) := by
  simp [GetNextNodes, hc]

theorem GetNextNodes_miss (env : Env) (rc : RuleChainCtx) (id : RuleNodeId)
    (relationType : String)
    (hc : Lookup rc.relationCache ⟨id, relationType⟩ = none) :
    ∃ sl fl, GetNextNodes env rc id relationType
        = (sl, fl, { rc with relationCache := MInsert rc.relationCache ⟨id, relationType⟩ sl })
      ∧ fl = sl.isSome ∧ sl ≠ some [] := by
  cases hr : GetNodeRoutes rc id with
  | none =>
    refine ⟨none, false, ?_, rfl, by simp⟩
    simp [GetNextNodes, hc, hr]
  | some rels =>
    refine ⟨(resolveLoop env rc relationType rels none false).1,
      (resolveLoop env rc relationType rels none false).2, ?_, ?_, ?_⟩
    · simp [GetNextNodes, hc, hr]
    · rw [resolveLoop_spec, goAppendAll_none]
      cases (rels.filter (fun r => r.RelationType = relationType)).filterMap
          (fun r => GetNodeById env rc r.OutId) with
      | nil => simp [goOfList]
      | cons x xs => simp [goOfList]
    · rw [resolveLoop_spec, goAppendAll_none]
      cases (rels.filter (fun r => r.RelationType = relationType)).filterMap
          (fun r => GetNodeById env rc r.OutId) with
      | nil => simp [goOfList]
      | cons x xs => simp [goOfList]

/-- C2: two calls of GetNextNodes for the same key with no intervening
reload: the second call returns the same slice and the same instance
state as the first, its cache-hit boolean equals the first call's
boolean, and that boolean equals len(slice) > 0.  (Go returns the
cached slice itself, so pointer identity is rendered as structural
equality; the hypothesis is the invariant, established by construction
and preserved by every cache write, that no cached slice is non-nil and
empty.) -/
theorem GetNextNodes_cache_stable (env : Env) (rc : RuleChainCtx) (id : RuleNodeId)
    (relationType : String) (hwf : CacheWF rc) :
    (GetNextNodes env ((GetNextNodes env rc id relationType).2.2) id relationType).1
      = (GetNextNodes env rc id relationType).1
    ∧ (GetNextNodes env ((GetNextNodes env rc id relationType).2.2) id relationType).2.2
      = (GetNextNodes env rc id relationType).2.2
    ∧ (GetNextNodes env ((GetNextNodes env rc id relationType).2.2) id relationType).2.1
      = (GetNextNodes env rc id relationType).2.1
    ∧ (GetNextNodes env rc id relationType).2.1
      = decide (0 < sliceLen (GetNextNodes env rc id relationType).1) := by
  cases hc : Lookup rc.relationCache ⟨id, relationType⟩ with
  | some cached =>
    have hne : cached ≠ some [] := hwf _ (Lookup_mem _ _ _ hc)
    have h1 := GetNextNodes_hit env rc id relationType cached hc
    rw [h1]
    refine ⟨by rw [h1], by rw [h1], by rw [h1], ?_⟩
    cases cached with
    | none => simp [sliceLen]
    | some l =>
      cases l with
      | nil => exact absurd rfl hne
      | cons x xs => simp [sliceLen]
  | none =>
    obtain ⟨sl, fl, h1, hfl, hne⟩ := GetNextNodes_miss env rc id relationType hc
    have h2 : Lookup (MInsert rc.relationCache (⟨id, relationType⟩ : RelationCache) sl)
        ⟨id, relationType⟩ = some sl := by
      rw [Lookup_MInsert, if_pos rfl]
    have h3 := GetNextNodes_hit env
      { rc with relationCache := MInsert rc.relationCache ⟨id, relationType⟩ sl }
      id relationType sl h2
    rw [h1]
    dsimp only
    rw [h3]
    refine ⟨rfl, rfl, hfl.symm, ?_⟩
    cases sl with
    | none => simp [hfl, sliceLen]
    | some l =>
      cases l with
      | nil => exact absurd rfl hne
      | cons x xs => simp [hfl, sliceLen]

/-- Witness for C2 at the freshly built two-node chain, whose cache is
empty and hence well-formed. -/
theorem GetNextNodes_cache_stable_witness :
    CacheWF ctxTwo
    ∧ ((GetNextNodes envW ((GetNextNodes envW ctxTwo ⟨"a", ComponentType.NODE⟩ "Success").2.2)
          ⟨"a", ComponentType.NODE⟩ "Success").1
        = (GetNextNodes envW ctxTwo ⟨"a", ComponentType.NODE⟩ "Success").1
      ∧ (GetNextNodes envW ((GetNextNodes envW ctxTwo ⟨"a", ComponentType.NODE⟩ "Success").2.2)
          ⟨"a", ComponentType.NODE⟩ "Success").2.2
        = (GetNextNodes envW ctxTwo ⟨"a", ComponentType.NODE⟩ "Success").2.2
      ∧ (GetNextNodes envW ((GetNextNodes envW ctxTwo ⟨"a", ComponentType.NODE⟩ "Success").2.2)
          ⟨"a", ComponentType.NODE⟩ "Success").2.1
        = (GetNextNodes envW ctxTwo ⟨"a", ComponentType.NODE⟩ "Success").2.1
      ∧ (GetNextNodes envW ctxTwo ⟨"a", ComponentType.NODE⟩ "Success").2.1
        = decide (0 < sliceLen (GetNextNodes envW ctxTwo ⟨"a", ComponentType.NODE⟩ "Success").1)) :=
  ⟨by decide, GetNextNodes_cache_stable envW ctxTwo ⟨"a", ComponentType.NODE⟩ "Success" (by decide)⟩

/-- Counterexample to C3 as stated: Copy does not copy the isEmpty
flag.  Copying a fresh one-node build over a built empty chain leaves
isEmpty true, so the result differs from the freshly built instance —
it is not indistinguishable from a fresh build. -/
theorem Copy_not_fresh :
    InitRuleChainCtx envW cfgW aspW dEmpty = .ok ctxEmptyW
    ∧ InitRuleChainCtx envW cfgW aspW dOne = .ok ctxOneW
    ∧ (RuleChainCtx.Copy ctxEmptyW ctxOneW).isEmpty ≠ ctxOneW.isEmpty
    ∧ RuleChainCtx.Copy ctxEmptyW ctxOneW ≠ ctxOneW := by decide

/-- C3 (amended): after Copy from a freshly built instance, the
relation cache is always empty and every copied field equals the fresh
instance's; since isEmpty (and the unused nodeCtxRoutes field) is not
copied, the result coincides with the fresh instance exactly when those
fields already agree. -/
theorem Copy_fresh_agree (env : Env) (cfg : Config) (a : AspectList) (d : RuleChain)
    (rc newCtx : RuleChainCtx) (h : InitRuleChainCtx env cfg a d = .ok newCtx)
    (hie : rc.isEmpty = newCtx.isEmpty) (hncr : rc.nodeCtxRoutes = newCtx.nodeCtxRoutes) :
    RuleChainCtx.Copy rc newCtx = newCtx
    ∧ (RuleChainCtx.Copy rc newCtx).relationCache = [] := by
  have hrc : newCtx.relationCache = [] := (Init_ok_fields env cfg a d newCtx h).1
  refine ⟨?_, rfl⟩
  cases newCtx
  simp only [RuleChainCtx.Copy, RuleChainCtx.mk.injEq] at *
  simp_all

/-- Witness for the amended C3: copying the fresh one-node build over
the built two-node context (both have isEmpty false) gives exactly the
fresh instance. -/
theorem Copy_fresh_agree_witness :
    InitRuleChainCtx envW cfgW aspW dOne = .ok ctxOneW
    ∧ ctxTwo.isEmpty = ctxOneW.isEmpty
    ∧ ctxTwo.nodeCtxRoutes = ctxOneW.nodeCtxRoutes
    ∧ (RuleChainCtx.Copy ctxTwo ctxOneW = ctxOneW
       ∧ (RuleChainCtx.Copy ctxTwo ctxOneW).relationCache = []) :=
  ⟨by decide, by decide, by decide,
    Copy_fresh_agree envW cfgW aspW dOne ctxTwo ctxOneW (by decide) (by decide) (by decide)⟩

theorem runHooks_spec (env : Env) (c : RuleChainCtx) (e : Option String) (ts : List Nat) :
    runHooks env c e ts
      = ((firstHookErr env e ts).elim e some,
         (hooksRun env e ts).map (fun t => (⟨c, c, e, t⟩ : HookCall))) := by
  induction ts with
  | nil => simp [runHooks, firstHookErr, hooksRun]
  | cons t ts ih =>
    cases ho : env.onReload t e with
    | some hookErr => simp [runHooks, firstHookErr, hooksRun, ho]
    | none => simp [runHooks, firstHookErr, hooksRun, ho, ih]

/-- C4: ReloadSelf invokes the reload hooks of the (possibly swapped)
instance with (this, this, err) whether or not decoding succeeded; a
hook error stops further hooks and is returned; otherwise the decode
error (nil on success) is returned; and on decode failure the instance
is neither destroyed nor swapped. -/
theorem ReloadSelf_hooks_spec (env : Env) (rc : RuleChainCtx) (b : List Nat) :
    (∀ call ∈ (ReloadSelf env rc b).hookCalls,
        call.chainArg = (ReloadSelf env rc b).state
        ∧ call.nodeArg = (ReloadSelf env rc b).state
        ∧ call.errArg = errOf (env.decode rc.aspects b))
    ∧ (ReloadSelf env rc b).hookCalls.map HookCall.tag
        = hooksRun env (errOf (env.decode rc.aspects b)) (ReloadSelf env rc b).state.reloadAspects
    ∧ (ReloadSelf env rc b).ret
        = (firstHookErr env (errOf (env.decode rc.aspects b))
            (ReloadSelf env rc b).state.reloadAspects).elim (errOf (env.decode rc.aspects b)) some
    ∧ (∀ msg, errOf (env.decode rc.aspects b) = some msg →
        (ReloadSelf env rc b).state = rc ∧ (ReloadSelf env rc b).destroyed = false)
    ∧ (errOf (env.decode rc.aspects b) = none → (ReloadSelf env rc b).destroyed = true) := by
  cases hd : env.decode rc.aspects b with
  | ok newCtx =>
    have h1 : ReloadSelf env rc b
        = ⟨RuleChainCtx.Copy rc newCtx,
           (runHooks env (RuleChainCtx.Copy rc newCtx) none
             (RuleChainCtx.Copy rc newCtx).reloadAspects).1,
           (runHooks env (RuleChainCtx.Copy rc newCtx) none
             (RuleChainCtx.Copy rc newCtx).reloadAspects).2, true⟩ := by
      simp [ReloadSelf, hd]
    rw [h1]
    simp only [errOf]
    rw [runHooks_spec]
    dsimp only
    refine ⟨?_, ?_, rfl, ?_, ?_⟩
    · intro call hcall
      simp only [List.mem_map] at hcall
      obtain ⟨t, _, rfl⟩ := hcall
      exact ⟨rfl, rfl, rfl⟩
    · simp [List.map_map, Function.comp_def]
    · intro msg hmsg
      cases hmsg
    · intro _
      trivial
  | error e0 =>
    have h1 : ReloadSelf env rc b
        = ⟨rc, (runHooks env rc (some e0) rc.reloadAspects).1,
           (runHooks env rc (some e0) rc.reloadAspects).2, false⟩ := by
      simp [ReloadSelf, hd]
    rw [h1]
    simp only [errOf]
    rw [runHooks_spec]
    dsimp only
    refine ⟨?_, ?_, rfl, ?_, ?_⟩
    · intro call hcall
      simp only [List.mem_map] at hcall
      obtain ⟨t, _, rfl⟩ := hcall
      exact ⟨rfl, rfl, rfl⟩
    · simp [List.map_map, Function.comp_def]
    · intro msg hmsg
      exact ⟨by trivial, by trivial⟩
    · intro hnone
      cases hnone

/-- Witness for C4 at the concrete environment whose decoder always
fails with bad and whose hook 2 fails with hookfail: hooks 1 and 2 run
with (this, this, some bad), hook 3 is skipped, the hook error is
returned, and the instance is neither destroyed nor swapped. -/
theorem ReloadSelf_hooks_spec_witness :
    (ReloadSelf envW ctxOneW [0]).ret = some "hookfail"
    ∧ (ReloadSelf envW ctxOneW [0]).hookCalls.map HookCall.tag = [1, 2]
    ∧ (ReloadSelf envW ctxOneW [0]).state = ctxOneW
    ∧ (ReloadSelf envW ctxOneW [0]).destroyed = false
    ∧ (∀ call ∈ (ReloadSelf envW ctxOneW [0]).hookCalls,
        call.chainArg = (ReloadSelf envW ctxOneW [0]).state
        ∧ call.nodeArg = (ReloadSelf envW ctxOneW [0]).state
        ∧ call.errArg = errOf (envW.decode ctxOneW.aspects [0])) := by
  have h := ReloadSelf_hooks_spec envW ctxOneW [0]
  refine ⟨?_, ?_, ?_, ?_, h.1⟩
  · rw [h.2.2.1]
    decide
  · rw [h.2.1]
    decide
  · exact (h.2.2.2.1 "bad" (by decide)).1
  · exact (h.2.2.2.1 "bad" (by decide)).2

/-- Counterexample to C5 as stated: on a built empty chain, isEmpty is
true and the root execution state holds the synthesized node, but
GetFirstNode returns the placeholder with found = false, not
found = true. -/
theorem firstNode_empty_found_false :
    InitRuleChainCtx envW cfgW aspW dEmpty = .ok ctxEmptyW
    ∧ ctxEmptyW.isEmpty = true
    ∧ GetFirstNode envW ctxEmptyW = some (some NodeCtx.zeroCtx, false) := by decide

/-- C5 (amended): for a built chain whose definition has zero nodes or
whose first-node index is at or above the node count, isEmpty is true,
the root execution state points to the synthesized empty node, and
firstNode() returns the zero placeholder node with found = false.  (A
negative first-node index instead panics during the build, so no built
context exists for it.) -/
theorem empty_chain_synthesis (env : Env) (cfg : Config) (a : AspectList) (d : RuleChain)
    (ctx : RuleChainCtx) (h : InitRuleChainCtx env cfg a d = .ok ctx)
    (hoob : d.Metadata.Nodes = []
      ∨ (d.Metadata.Nodes.length : Int) ≤ d.Metadata.FirstNodeIndex) :
    ctx.isEmpty = true
    ∧ ctx.rootRuleContext = some ⟨(env.buildNode cfg emptyRuleNode).toOption⟩
    ∧ GetFirstNode env ctx = some (some NodeCtx.zeroCtx, false) := by
  obtain ⟨ids, nds, hn, hfin⟩ := Init_ok_destruct env cfg a d ctx h
  have hlen : ids.length = d.Metadata.Nodes.length := by
    have := initNodesGo_ok_length env cfg d.Metadata.Nodes 0 [] [] ids nds hn
    simpa using this
  have hfni : ¬ d.Metadata.FirstNodeIndex < 0 := by
    intro hneg
    have hnone : GetFirstNode env (mkCtx0 env cfg a d ids nds) = none :=
      GetNodeByIndex_neg env _ _ hneg
    unfold initFinish at hfin
    rw [hnone] at hfin
    exact Outcome.noConfusion hfin
  have hle : ((mkCtx0 env cfg a d ids nds).nodeIds.length : Int)
      ≤ d.Metadata.FirstNodeIndex := by
    show ((ids.length : Int)) ≤ _
    rw [hlen]
    rcases hoob with hnil | hge
    · rw [hnil]
      simp only [List.length_nil, Int.ofNat_zero]
      omega
    · exact hge
  have hff : GetFirstNode env (mkCtx0 env cfg a d ids nds)
      = some (some NodeCtx.zeroCtx, false) :=
    GetNodeByIndex_oob env _ _ hle
  rcases initFinish_ok env cfg _ ctx hfin with ⟨fn, hf, rfl⟩ | ⟨fn, hf, rfl⟩
  · rw [hff] at hf
    simp at hf
  · refine ⟨rfl, rfl, ?_⟩
    exact GetNodeByIndex_oob env _ _ hle

/-- Witness for the amended C5 at the concrete empty definition. -/
theorem empty_chain_synthesis_witness :
    InitRuleChainCtx envW cfgW aspW dEmpty = .ok ctxEmptyW
    ∧ (dEmpty.Metadata.Nodes = []
       ∨ (dEmpty.Metadata.Nodes.length : Int) ≤ dEmpty.Metadata.FirstNodeIndex)
    ∧ (ctxEmptyW.isEmpty = true
       ∧ ctxEmptyW.rootRuleContext = some ⟨(envW.buildNode cfgW emptyRuleNode).toOption⟩
       ∧ GetFirstNode envW ctxEmptyW = some (some NodeCtx.zeroCtx, false)) :=
  ⟨by decide, Or.inl (by decide),
    empty_chain_synthesis envW cfgW aspW dEmpty ctxEmptyW (by decide) (Or.inl (by decide))⟩

/-- Counterexample to C6 as stated: on a built one-node chain,
GetNodeByIndex at the negative index -1 does not return a placeholder
with false — it reaches the slice indexing and panics (modelled as
none), because the code only checks the upper bound. -/
theorem GetNodeByIndex_negative_panics :
    InitRuleChainCtx envW cfgW aspW dOne = .ok ctxOneW
    ∧ GetNodeByIndex envW ctxOneW (-1) = none := by decide

/-- C6 (amended): GetNodeByIndex is bounds-checked only above: for
every index at or above len(nodeOrder) it returns the placeholder node
with false, while every negative index reaches the slice indexing and
panics. -/
theorem GetNodeByIndex_bounds (env : Env) (rc : RuleChainCtx) (i : Int) :
    ((rc.nodeIds.length : Int) ≤ i →
      GetNodeByIndex env rc i = some (some NodeCtx.zeroCtx, false))
    ∧ (i < 0 → GetNodeByIndex env rc i = none) :=
  ⟨GetNodeByIndex_oob env rc i, GetNodeByIndex_neg env rc i⟩

/-- Witness for the amended C6 at the built one-node chain: index 5 is
out of range above and yields the placeholder; index -1 panics. -/
theorem GetNodeByIndex_bounds_witness :
    ((ctxOneW.nodeIds.length : Int) ≤ 5
      ∧ GetNodeByIndex envW ctxOneW 5 = some (some NodeCtx.zeroCtx, false))
    ∧ ((-1 : Int) < 0 ∧ GetNodeByIndex envW ctxOneW (-1) = none) :=
  ⟨⟨by decide, (GetNodeByIndex_bounds envW ctxOneW 5).1 (by decide)⟩,
   ⟨by decide, (GetNodeByIndex_bounds envW ctxOneW (-1)).2 (by decide)⟩⟩

theorem initNodesGo_congr (env env' : Env) (hb : env'.buildNode = env.buildNode)
    (cfg : Config) (L : List RuleNode) :
    ∀ idx ids0 nds0, initNodesGo env' cfg L idx ids0 nds0 = initNodesGo env cfg L idx ids0 nds0 := by
  induction L with
  | nil => intro _ _ _; rfl
  | cons n L ih =>
    intro idx ids0 nds0
    unfold initNodesGo
    dsimp only
    rw [hb]
    cases env.buildNode cfg
        (if n.Id = "" then { n with Id := defaultNodeIdStem ++ toString idx } else n) with
    | error e => rfl
    | ok c => exact ih _ _ _

theorem GetNodeByIndex_congr (env env' : Env) (rc rc' : RuleChainCtx)
    (hdp : env'.defaultPool = env.defaultPool)
    (hids : rc'.nodeIds = rc.nodeIds) (hnodes : rc'.nodes = rc.nodes)
    (hpool : rc'.ruleChainPool = rc.ruleChainPool)
    (hdef : rc'.SelfDefinition = rc.SelfDefinition) (i : Int) :
    GetNodeByIndex env' rc' i = GetNodeByIndex env rc i := by
  cases rc; cases rc'; cases env; cases env'
  simp only at hdp hids hnodes hpool hdef
  subst hdp hids hnodes hpool hdef
  rfl

theorem Init_decrypt_isOk (env : Env) (dec' : String → String → Except String String)
    (cfg : Config) (a : AspectList) (d : RuleChain) :
    (InitRuleChainCtx { env with decrypt := dec' } cfg a d).isOk
      = (InitRuleChainCtx env cfg a d).isOk := by
  unfold InitRuleChainCtx
  rw [initNodesGo_congr env { env with decrypt := dec' } rfl cfg d.Metadata.Nodes 0 [] []]
  cases hn : initNodesGo env cfg d.Metadata.Nodes 0 [] [] with
  | error e => rfl
  | ok p =>
    obtain ⟨ids, nds⟩ := p
    have hgf : GetFirstNode { env with decrypt := dec' }
        (mkCtx0 { env with decrypt := dec' } cfg a d ids nds)
        = GetFirstNode env (mkCtx0 env cfg a d ids nds) :=
      GetNodeByIndex_congr env { env with decrypt := dec' } _ _ rfl rfl rfl rfl rfl _
    unfold initFinish
    dsimp only
    rw [hgf]
    cases hf : GetFirstNode env (mkCtx0 env cfg a d ids nds) with
    | none => rfl
    | some pr =>
      obtain ⟨fn, okb⟩ := pr
      cases okb <;> simp [Outcome.isOk]

/-- C7: every secrets entry given at build time appears in the stored
secrets map — decrypted when decryption succeeds, verbatim when it
fails; no entry is dropped (the key list is preserved) and no
decryption outcome can make the build fail (replacing the cipher by any
other leaves the build outcome's success unchanged). -/
theorem decryptSecret_passthrough (env : Env) (cfg : Config) (a : AspectList) (d : RuleChain)
    (conf : List (String × ConfigValue)) (ctx : RuleChainCtx)
    (dec' : String → String → Except String String)
    (hconf : d.RuleChain.Configuration = some conf)
    (h : InitRuleChainCtx env cfg a d = .ok ctx) :
    ctx.decryptSecrets
      = decryptSecret env (env.toStringMapString (Lookup conf secretsKey)) cfg.SecretKey
    ∧ ctx.decryptSecrets.map Prod.fst
      = (env.toStringMapString (Lookup conf secretsKey)).map Prod.fst
    ∧ (∀ k v, (k, v) ∈ env.toStringMapString (Lookup conf secretsKey) →
        (∀ p, env.decrypt v cfg.SecretKey = .ok p → (k, p) ∈ ctx.decryptSecrets)
        ∧ (∀ msg, env.decrypt v cfg.SecretKey = .error msg → (k, v) ∈ ctx.decryptSecrets))
    ∧ (InitRuleChainCtx { env with decrypt := dec' } cfg a d).isOk = true := by
  have hds := (Init_ok_fields env cfg a d ctx h).2.2.2.2.2.2.2.2.2
  rw [hconf] at hds
  refine ⟨hds, ?_, ?_, ?_⟩
  · rw [hds]
    unfold decryptSecret
    rw [List.map_map]
    apply List.map_congr_left
    intro kv _
    cases hdk : env.decrypt kv.2 cfg.SecretKey <;> simp [Function.comp_def, hdk]
  · intro k v hm
    constructor
    · intro p hp
      rw [hds]
      have hmem := List.mem_map_of_mem
        (fun kv => match env.decrypt kv.2 cfg.SecretKey with
          | .ok plaintext => (kv.1, plaintext)
          | .error _ => kv) hm
      unfold decryptSecret
      simpa [hp] using hmem
    · intro msg hmsg
      rw [hds]
      have hmem := List.mem_map_of_mem
        (fun kv => match env.decrypt kv.2 cfg.SecretKey with
          | .ok plaintext => (kv.1, plaintext)
          | .error _ => kv) hm
      unfold decryptSecret
      simpa [hmsg] using hmem
  · rw [Init_decrypt_isOk, h]
    rfl

/-- Witness for C7 at the concrete two-node chain, whose secrets map
holds one decryptable entry (s1, decrypted to plain1) and one
undecryptable entry (s2, kept verbatim). -/
theorem decryptSecret_passthrough_witness :
    dTwo.RuleChain.Configuration
      = some [(secretsKey, ConfigValue.smap [("s1", "enc1"), ("s2", "enc2")])]
    ∧ InitRuleChainCtx envW cfgW aspW dTwo = .ok ctxTwo
    ∧ ("s1", "plain1") ∈ ctxTwo.decryptSecrets
    ∧ ("s2", "enc2") ∈ ctxTwo.decryptSecrets
    ∧ (InitRuleChainCtx { envW with decrypt := fun _ _ => .error "down" } cfgW aspW dTwo).isOk
      = true := by
  have h := decryptSecret_passthrough envW cfgW aspW dTwo
    [(secretsKey, ConfigValue.smap [("s1", "enc1"), ("s2", "enc2")])] ctxTwo
    (fun _ _ => .error "down") (by decide) (by decide)
  refine ⟨by decide, by decide, ?_, ?_, h.2.2.2⟩
  · exact (h.2.2.1 "s1" "enc1" (by decide)).1 "plain1" rfl
  · exact (h.2.2.1 "s2" "enc2" (by decide)).2 "badcipher" rfl

theorem filterMap_filter_isSome (f : α → Option β) (l : List α) :
    (l.filter (fun a => (f a).isSome)).filterMap f = l.filterMap f := by
  induction l with
  | nil => rfl
  | cons a l ih =>
    cases hf : f a with
    | some b => simp [List.filter_cons, hf, List.filterMap_cons, ih]
    | none => simp [List.filter_cons, hf, List.filterMap_cons, ih]

/-- C8: a relation whose target is a NODE-kind id absent from the node
map, or a CHAIN-kind id absent from the sub-chain pool or whose
engine's root chain context is nil, resolves to nothing and is silently
omitted: the successor list equals the resolution of only the
resolvable matching relations, and resolution is total (no error is
raised; the unresolvable relation just yields no entry). -/
theorem GetNextNodes_drops_unresolvable (env : Env) (cfg : Config) (a : AspectList)
    (d : RuleChain) (ctx : RuleChainCtx) (h : InitRuleChainCtx env cfg a d = .ok ctx)
    (fromId relationType : String) :
    (GetNextNodes env ctx ⟨fromId, ComponentType.NODE⟩ relationType).1
      = goOfList (((matchingRels d fromId relationType).filter
          (fun r => (GetNodeById env ctx r.OutId).isSome)).filterMap
          (fun r => GetNodeById env ctx r.OutId))
    ∧ (∀ r ∈ matchingRels d fromId relationType,
        ((r.OutId.typ = ComponentType.NODE ∧ Lookup ctx.nodes r.OutId = none)
         ∨ (r.OutId.typ = ComponentType.CHAIN
            ∧ Lookup (GetRuleChainPool env ctx) r.OutId.Id = none)
         ∨ (r.OutId.typ = ComponentType.CHAIN
            ∧ ∃ eng, Lookup (GetRuleChainPool env ctx) r.OutId.Id = some eng
                ∧ eng.root = none)) →
        GetNodeById env ctx r.OutId = none) := by
  constructor
  · rw [filterMap_filter_isSome]
    exact (GetNextNodes_built env cfg a d ctx h fromId relationType).1
  · intro r _ hcases
    rcases hcases with ⟨ht, hm⟩ | ⟨ht, hm⟩ | ⟨ht, eng, hm, hroot⟩
    · simp [GetNodeById, ht, hm]
    · simp [GetNodeById, ht, hm]
    · simp [GetNodeById, ht, hm, hroot]

/-- Witness for C8 at the concrete two-node chain: node a has matching
relations to the missing node id missing and to the missing sub-chain
nosub; both resolve to nothing and the successor list is built from the
resolvable relations only. -/
theorem GetNextNodes_drops_unresolvable_witness :
    InitRuleChainCtx envW cfgW aspW dTwo = .ok ctxTwo
    ∧ (GetNextNodes envW ctxTwo ⟨"a", ComponentType.NODE⟩ "Success").1
      = goOfList (((matchingRels dTwo "a" "Success").filter
          (fun r => (GetNodeById envW ctxTwo r.OutId).isSome)).filterMap
          (fun r => GetNodeById envW ctxTwo r.OutId))
    ∧ GetNodeById envW ctxTwo ⟨"missing", ComponentType.NODE⟩ = none
    ∧ GetNodeById envW ctxTwo ⟨"nosub", ComponentType.CHAIN⟩ = none := by
  have h := GetNextNodes_drops_unresolvable envW cfgW aspW dTwo ctxTwo (by decide) "a" "Success"
  refine ⟨by decide, h.1, ?_, ?_⟩
  · exact h.2 ⟨⟨"a", ComponentType.NODE⟩, ⟨"missing", ComponentType.NODE⟩, "Success"⟩
      (by decide) (Or.inl ⟨rfl, by decide⟩)
  · exact h.2 ⟨⟨"a", ComponentType.NODE⟩, ⟨"nosub", ComponentType.CHAIN⟩, "Success"⟩
      (by decide) (Or.inr (Or.inl ⟨rfl, by decide⟩))

theorem Lookup_filter_self (m : List (String × α)) (n : String) :
    Lookup (m.filter (fun kv => kv.1 ≠ n)) n = none := by
  induction m with
  | nil => rfl
  | cons kv rest ih =>
    by_cases hk : kv.1 = n
    · simp only [List.filter_cons, hk]
      simpa using ih
    · simp only [List.filter_cons]
      rw [if_pos (by simp [hk])]
      rw [Lookup, if_neg hk]
      exact ih

theorem Lookup_none_filter (m : List (String × α)) (q : String × α → Bool) (n : String)
    (h : Lookup m n = none) : Lookup (m.filter q) n = none := by
  induction m with
  | nil => rfl
  | cons kv rest ih =>
    rw [Lookup] at h
    by_cases hk : kv.1 = n
    · rw [if_pos hk] at h
      cases h
    · rw [if_neg hk] at h
      cases hq : q kv with
      | false => simp only [List.filter_cons, hq]; exact ih h
      | true =>
        simp only [List.filter_cons, hq, if_pos]
        rw [Lookup, if_neg hk]
        exact ih h

theorem unregister_preserves_none (names : List String) :
    ∀ (m : List (String × α)) (n : String), Lookup m n = none →
    Lookup (builtinsUnregister m names) n = none := by
  induction names with
  | nil => intro m n h; exact h
  | cons name rest ih =>
    intro m n h
    show Lookup (builtinsUnregister (m.filter (fun kv => kv.1 ≠ name)) rest) n = none
    exact ih _ n (Lookup_none_filter m _ n h)

theorem Lookup_unregister_none (names : List String) :
    ∀ (m : List (String × α)) (n : String), n ∈ names →
    Lookup (builtinsUnregister m names) n = none := by
  induction names with
  | nil => intro m n h; cases h
  | cons name rest ih =>
    intro m n h
    rcases List.mem_cons.mp h with rfl | hmem
    · show Lookup (builtinsUnregister (m.filter (fun kv => kv.1 ≠ n)) rest) n = none
      exact unregister_preserves_none rest _ n (Lookup_filter_self m n)
    · exact ih _ n hmem

/-- C9: for the builtins processor registry, Get after Register returns
the registered processor with found true; Get after Unregister returns
found false; and Register on an existing name replaces the previous
processor instead of failing. -/
theorem builtins_register_get_unregister {α : Type} (m : List (String × α))
    (name n : String) (p q : α) (names : List String) :
    builtinsGet (builtinsRegister m name p) name = (some p, true)
    ∧ (n ∈ names → builtinsGet (builtinsUnregister m names) n = (none, false))
    ∧ builtinsGet (builtinsRegister (builtinsRegister m name p) name q) name = (some q, true) := by
  refine ⟨?_, ?_, ?_⟩
  · simp [builtinsGet, builtinsRegister, Lookup_MInsert]
  · intro hmem
    have hn := Lookup_unregister_none names m n hmem
    simp [builtinsGet, hn]
  · simp [builtinsGet, builtinsRegister, Lookup_MInsert]

/-- Witness for C9 on a concrete registry. -/
theorem builtins_register_get_unregister_witness :
    ("r" ∈ ["r", "s"])
    ∧ builtinsGet (builtinsRegister ([("x", 1)] : List (String × Nat)) "r" 2) "r"
        = (some 2, true)
    ∧ builtinsGet (builtinsUnregister ([("x", 1), ("r", 9)] : List (String × Nat)) ["r", "s"]) "r"
        = (none, false)
    ∧ builtinsGet (builtinsRegister (builtinsRegister ([("x", 1)] : List (String × Nat)) "r" 2) "r" 3) "r"
        = (some 3, true) := by
  have h1 := builtins_register_get_unregister ([("x", 1)] : List (String × Nat)) "r" "r" 2 3 ["r", "s"]
  have h2 := builtins_register_get_unregister ([("x", 1), ("r", 9)] : List (String × Nat)) "r" "r" 2 3 ["r", "s"]
  exact ⟨by decide, h1.1, h2.2.1 (by decide), h1.2.2⟩

theorem mem_mergeIns (acc : List String) (a v : String) :
    v ∈ mergeIns acc a ↔ v ∈ acc ∨ v = a := by
  unfold mergeIns
  by_cases h : a ∈ acc
  · rw [if_pos h]
    constructor
    · exact Or.inl
    · rintro (hv | rfl)
      · exact hv
      · exact h
  · rw [if_neg h]
    simp [List.mem_append]

theorem nodup_mergeIns (acc : List String) (a : String) (h : acc.Nodup) :
    (mergeIns acc a).Nodup := by
  unfold mergeIns
  by_cases ha : a ∈ acc
  · rwa [if_pos ha]
  · rw [if_neg ha]
    simp [List.nodup_append, h, ha]

theorem mem_foldl_mergeIns (l : List String) :
    ∀ acc v, v ∈ l.foldl mergeIns acc ↔ v ∈ acc ∨ v ∈ l := by
  induction l with
  | nil => intro acc v; simp
  | cons a l ih =>
    intro acc v
    simp only [List.foldl_cons]
    rw [ih, mem_mergeIns]
    simp [List.mem_cons]
    tauto

theorem nodup_foldl_mergeIns (l : List String) :
    ∀ acc, acc.Nodup → (l.foldl mergeIns acc).Nodup := by
  induction l with
  | nil => intro acc h; exact h
  | cons a l ih => intro acc h; exact ih _ (nodup_mergeIns acc a h)

theorem mem_parseStepField (sp bp : String → List String) (acc : List String)
    (kv : String × ConfigValue) (v : String) :
    v ∈ parseStepField sp bp acc kv
      ↔ v ∈ acc ∨ ∃ s, kv.2 = ConfigValue.str s
          ∧ v ∈ (if hasScript kv.1 then sp s else bp s) := by
  obtain ⟨fn, fv⟩ := kv
  cases fv with
  | str s =>
    show v ∈ (if hasScript fn then sp s else bp s).foldl mergeIns acc ↔ _
    rw [mem_foldl_mergeIns]
    simp
  | smap mm => simp [parseStepField]
  | other t => simp [parseStepField]

theorem nodup_parseStepField (sp bp : String → List String) (acc : List String)
    (kv : String × ConfigValue) (h : acc.Nodup) :
    (parseStepField sp bp acc kv).Nodup := by
  obtain ⟨fn, fv⟩ := kv
  cases fv with
  | str s => exact nodup_foldl_mergeIns _ _ h
  | smap mm => exact h
  | other t => exact h

theorem mem_foldl_parseStepField (sp bp : String → List String)
    (confs : List (String × ConfigValue)) :
    ∀ acc v, v ∈ confs.foldl (parseStepField sp bp) acc
      ↔ v ∈ acc ∨ ∃ kv ∈ confs, ∃ s, kv.2 = ConfigValue.str s
          ∧ v ∈ (if hasScript kv.1 then sp s else bp s) := by
  induction confs with
  | nil => intro acc v; simp
  | cons kv confs ih =>
    intro acc v
    simp only [List.foldl_cons]
    rw [ih, mem_parseStepField]
    constructor
    · rintro ((hv | ⟨s, hs, hv⟩) | ⟨kv1, hkv1, s, hs, hv⟩)
      · exact Or.inl hv
      · exact Or.inr ⟨kv, List.mem_cons_self _ _, s, hs, hv⟩
      · exact Or.inr ⟨kv1, List.mem_cons_of_mem _ hkv1, s, hs, hv⟩
    · rintro (hv | ⟨kv1, hkv1, s, hs, hv⟩)
      · exact Or.inl (Or.inl hv)
      · rcases List.mem_cons.mp hkv1 with rfl | hmem
        · exact Or.inl (Or.inr ⟨s, hs, hv⟩)
        · exact Or.inr ⟨kv1, hmem, s, hs, hv⟩

theorem nodup_foldl_parseStepField (sp bp : String → List String)
    (confs : List (String × ConfigValue)) :
    ∀ acc, acc.Nodup → (confs.foldl (parseStepField sp bp) acc).Nodup := by
  induction confs with
  | nil => intro acc h; exact h
  | cons kv confs ih => intro acc h; exact ih _ (nodup_parseStepField sp bp acc kv h)

theorem mem_foldl_parseStepNode (sp bp : String → List String) (nodesL : List RuleNode) :
    ∀ acc v, v ∈ nodesL.foldl (parseStepNode sp bp) acc
      ↔ v ∈ acc ∨ ∃ node ∈ nodesL, ∃ kv ∈ node.Configuration, ∃ s,
          kv.2 = ConfigValue.str s ∧ v ∈ (if hasScript kv.1 then sp s else bp s) := by
  induction nodesL with
  | nil => intro acc v; simp
  | cons node nodesL ih =>
    intro acc v
    simp only [List.foldl_cons]
    rw [ih]
    rw [show parseStepNode sp bp acc node
      = node.Configuration.foldl (parseStepField sp bp) acc from rfl]
    rw [mem_foldl_parseStepField]
    constructor
    · rintro ((hv | ⟨kv, hkv, s, hs, hv⟩) | ⟨node1, hnode1, kv, hkv, s, hs, hv⟩)
      · exact Or.inl hv
      · exact Or.inr ⟨node, List.mem_cons_self _ _, kv, hkv, s, hs, hv⟩
      · exact Or.inr ⟨node1, List.mem_cons_of_mem _ hnode1, kv, hkv, s, hs, hv⟩
    · rintro (hv | ⟨node1, hnode1, kv, hkv, s, hs, hv⟩)
      · exact Or.inl (Or.inl hv)
      · rcases List.mem_cons.mp hnode1 with rfl | hmem
        · exact Or.inl (Or.inr ⟨kv, hkv, s, hs, hv⟩)
        · exact Or.inr ⟨node1, hmem, kv, hkv, s, hs, hv⟩

theorem nodup_foldl_parseStepNode (sp bp : String → List String) (nodesL : List RuleNode) :
    ∀ acc, acc.Nodup → (nodesL.foldl (parseStepNode sp bp) acc).Nodup := by
  induction nodesL with
  | nil => intro acc h; exact h
  | cons node nodesL ih =>
    intro acc h
    exact ih _ (nodup_foldl_parseStepField sp bp node.Configuration acc h)

/-- C10: ParseVars returns a duplicate-free list holding exactly the
variable names extracted from the string-valued configuration fields of
all nodes, where a field whose lowered name contains script is handled
by the script-convention extractor and every other field by the
brace-convention extractor.  The two extractors are universally
quantified since they live outside the given sources. -/
theorem ParseVars_nodup_complete (sp bp : String → List String) (d : RuleChain) :
    (ParseVars sp bp d).Nodup
    ∧ ∀ v, v ∈ ParseVars sp bp d
        ↔ ∃ node ∈ d.Metadata.Nodes, ∃ kv ∈ node.Configuration, ∃ s,
            kv.2 = ConfigValue.str s ∧ v ∈ (if hasScript kv.1 then sp s else bp s) := by
  constructor
  · exact nodup_foldl_parseStepNode sp bp d.Metadata.Nodes [] List.nodup_nil
  · intro v
    rw [show ParseVars sp bp d = d.Metadata.Nodes.foldl (parseStepNode sp bp) [] from rfl]
    rw [mem_foldl_parseStepNode]
    simp
